import Mathlib

/-!
Verification development for the typedparser library: a CLI-argument schema
system whose core is a post-parse type-reconciliation pass with a
strict/non-strict policy.  The repository ships only its package interface and
its test suite; the implementation module itself is not in the sources, so the
operations below are modelled from the specification (and, where the
specification's scenarios pin behaviour down, from the behaviour the test
suite demands), as noted on each definition.
-/

namespace Typedparser

/-- Runtime primitive kinds for parsed values (booleans, integers, strings). -/
inductive PrimKind where
  | pbool
  | pint
  | pstr
  deriving DecidableEq, Repr

/-- Modelled from the spec: the loosely-typed values the token-parsing engine
produces (spec section 3, "Loosely-typed record": destination name to
`Value | None`).  `vnone` is the engine's null; lists arise from `nargs` and
`append`-style actions. -/
inductive Value where
  | vnone
  | vbool (b : Bool)
  | vint (n : Int)
  | vstr (s : String)
  | vlist (xs : List Value)

mutual

/-- Decidable equality for values (the nested list forces a manual mutual
definition). -/
def Value.decEq : (a b : Value) → Decidable (a = b)
  | .vnone, .vnone => isTrue rfl
  | .vnone, .vbool _ => isFalse (fun h => Value.noConfusion h)
  | .vnone, .vint _ => isFalse (fun h => Value.noConfusion h)
  | .vnone, .vstr _ => isFalse (fun h => Value.noConfusion h)
  | .vnone, .vlist _ => isFalse (fun h => Value.noConfusion h)
  | .vbool _, .vnone => isFalse (fun h => Value.noConfusion h)
  | .vbool x, .vbool y =>
    if h : x = y then isTrue (by rw [h]) else
      isFalse (fun he => h (by injection he))
  | .vbool _, .vint _ => isFalse (fun h => Value.noConfusion h)
  | .vbool _, .vstr _ => isFalse (fun h => Value.noConfusion h)
  | .vbool _, .vlist _ => isFalse (fun h => Value.noConfusion h)
  | .vint _, .vnone => isFalse (fun h => Value.noConfusion h)
  | .vint _, .vbool _ => isFalse (fun h => Value.noConfusion h)
  | .vint x, .vint y =>
    if h : x = y then isTrue (by rw [h]) else
      isFalse (fun he => h (by injection he))
  | .vint _, .vstr _ => isFalse (fun h => Value.noConfusion h)
  | .vint _, .vlist _ => isFalse (fun h => Value.noConfusion h)
  | .vstr _, .vnone => isFalse (fun h => Value.noConfusion h)
  | .vstr _, .vbool _ => isFalse (fun h => Value.noConfusion h)
  | .vstr _, .vint _ => isFalse (fun h => Value.noConfusion h)
  | .vstr x, .vstr y =>
    if h : x = y then isTrue (by rw [h]) else
      isFalse (fun he => h (by injection he))
  | .vstr _, .vlist _ => isFalse (fun h => Value.noConfusion h)
  | .vlist _, .vnone => isFalse (fun h => Value.noConfusion h)
  | .vlist _, .vbool _ => isFalse (fun h => Value.noConfusion h)
  | .vlist _, .vint _ => isFalse (fun h => Value.noConfusion h)
  | .vlist _, .vstr _ => isFalse (fun h => Value.noConfusion h)
  | .vlist xs, .vlist ys =>
    match Value.decEqList xs ys with
    | isTrue h => isTrue (by rw [h])
    | isFalse h => isFalse (fun he => h (by injection he))

/-- Decidable equality for lists of values. -/
def Value.decEqList : (a b : List Value) → Decidable (a = b)
  | [], [] => isTrue rfl
  | [], _ :: _ => isFalse (fun h => List.noConfusion h)
  | _ :: _, [] => isFalse (fun h => List.noConfusion h)
  | x :: xs, y :: ys =>
    match Value.decEq x y, Value.decEqList xs ys with
    | isTrue h1, isTrue h2 => isTrue (by rw [h1, h2])
    | isFalse h1, _ => isFalse (fun he => h1 (by injection he))
    | isTrue _, isFalse h2 => isFalse (fun he => h2 (by injection he))

end

instance : DecidableEq Value := Value.decEq

/-- Modelled from the spec: `TypeExpr`, "a small closed algebra over
{Primitive(kind), Optional(TypeExpr), Sequence(TypeExpr), Untyped}"
(spec section 3).  `untyped` marks a field carrying no static annotation. -/
inductive TypeExpr where
  | prim (k : PrimKind)
  | opt (t : TypeExpr)
  | seq (t : TypeExpr)
  | untyped
  deriving DecidableEq, Repr

/-- A loosely-typed record: destination name to value, as the engine emits it. -/
abbrev Record := List (String × Value)

/-- First value stored under key `k`, if any (missing is distinct from
present-but-none). -/
def lookupRec (r : Record) (k : String) : Option Value :=
  (r.find? (fun p => p.1 == k)).map (fun p => p.2)

/-- Modelled from the spec: primitive kind match of a runtime value (spec
section 4.4, "require the value's runtime kind to match").  A boolean value is
accepted where an integer is declared, as in the host language's numeric
tower; the mixed-parser scenario (an `int` field receiving the engine's
`store_false` output in strict mode) requires this. -/
def primMatches : PrimKind → Value → Bool
  | .pbool, .vbool _ => true
  | .pint, .vint _ => true
  | .pint, .vbool _ => true
  | .pstr, .vstr _ => true
  | _, _ => false

/-- Modelled from the spec: top-level conformance of a value to a declared
type (spec section 4.4): `Optional(T)` accepts none unconditionally, a
sequence type checks every element, a primitive checks the runtime kind, and
an untyped declaration constrains nothing by itself. -/
def valueMatches : TypeExpr → Value → Bool
  | .untyped, _ => true
  | .prim k, v => primMatches k v
  | .opt t, v =>
    match v with
    | .vnone => true
    | w => valueMatches t w
  | .seq t, v =>
    match v with
    | .vlist xs => xs.all (fun x => valueMatches t x)
    | _ => false

/-- Error taxonomy of the reconciliation pass (spec section 7):
`AttributeError`-kind, `TypeError`-kind and `KeyError`-kind failures. -/
inductive ErrKind where
  | attributeError
  | typeError
  | keyError
  deriving DecidableEq, Repr

/-- Which action the engine performs for a slot (argparse-style). -/
inductive ActionKind where
  | store
  | storeTrue
  | storeFalse
  | storeConst
  | count
  | append
  | appendConst
  deriving DecidableEq, Repr

/-- Number-of-arguments specification; only the "one or more" form appears in
the observable surface. -/
inductive NargsSpec where
  | plus
  deriving DecidableEq, Repr

/-- Token-to-value converter for a slot (the descriptor's `type` entry). -/
inductive TypeConv where
  | convStr
  | convInt
  deriving DecidableEq, Repr

/-- Modelled from the spec: the Argument Descriptor (spec section 3),
"{positional_names, shortcut, dest, action, nargs, const, default,
type_converter, help}"; immutable pure value captured at field-declaration
time. -/
structure ArgumentDescriptor where
  flagNames : List String
  shortcut : Option String
  dest : Option String
  action : Option ActionKind
  nargs : Option NargsSpec
  const : Option Value
  defaultVal : Option Value
  typeConv : Option TypeConv
  help : Option String
  deriving DecidableEq

/-- Modelled from the spec: the Argument Descriptor Builder, an
`add_argument`-equivalent factory that performs "pure value construction"
(spec section 4.2); the implementation module is absent from the sources. -/
def add_argument (flagNames : List String) (shortcut : Option String)
    (dest : Option String) (action : Option ActionKind) (nargs : Option NargsSpec)
    (const : Option Value) (defaultVal : Option Value) (typeConv : Option TypeConv)
    (help : Option String) : ArgumentDescriptor :=
  ⟨flagNames, shortcut, dest, action, nargs, const, defaultVal, typeConv, help⟩

/-- A field's binding: either a plain default value (no CLI binding, or bound
on an externally supplied engine) or an Argument Descriptor.  The spec's
design note (section 9) prescribes exactly this tagged variant for the source
pattern of smuggling the descriptor through the field default. -/
inductive FieldDefault where
  | plain (v : Value)
  | desc (d : ArgumentDescriptor)
  deriving DecidableEq

/-- Modelled from the spec: a Field Record (spec section 3),
"{name, declared_type, default, is_annotated}"; a field with no static
annotation carries the distinguished type `TypeExpr.untyped`. -/
structure Field where
  name : String
  ty : TypeExpr
  dflt : FieldDefault
  deriving DecidableEq

/-- A schema: its declared fields in order, plus whether its representation is
open-shaped (arbitrary extra attributes can be set on instances) or
closed-shaped (fixed attribute set). -/
structure Schema where
  fields : List Field
  openShape : Bool
  deriving DecidableEq

/-- The value a field falls back to when the engine produced nothing for its
name: its plain default, or the default recorded inside its descriptor. -/
def fieldDefault (f : Field) : Value :=
  match f.dflt with
  | .plain v => v
  | .desc d => d.defaultVal.getD .vnone

/-- Declared field names of a schema, in declaration order. -/
def declaredNames (s : Schema) : List String :=
  s.fields.map (fun f => f.name)

/-- Whether record key `k` names no declared field of `s`. -/
def isExtraKey (s : Schema) (k : String) : Bool :=
  !((declaredNames s).contains k)

/-- Modelled from the spec: the extra-attribute policy of the reconciliation
pass (spec section 4.4, closing paragraph).  An undeclared entry in the raw
record fails with `KeyError`-kind in strict mode; non-strict mode performs no
recognition check, so the entry is attached as an extra attribute, which only
a closed-shaped representation refuses (`AttributeError`-kind). -/
def checkExtras (s : Schema) (r : Record) (strict : Bool) : Except ErrKind Unit :=
  match r.find? (fun p => isExtraKey s p.1) with
  | none => .ok ()
  | some _ =>
    if strict then .error .keyError
    else if s.openShape then .ok ()
    else .error .attributeError

/-- The value the reconciliation pass considers for a field: the record entry
when present, the field's default when the name is absent. -/
def effValue (r : Record) (f : Field) : Value :=
  (lookupRec r f.name).getD (fieldDefault f)

/-- Modelled from the spec: the strict-mode per-field check (spec section
4.4): a field with no static annotation fails with `TypeError`-kind, and
otherwise the value must conform to the declared type. -/
def checkFieldStrict (f : Field) (v : Value) : Except ErrKind Value :=
  if f.ty = .untyped then .error .typeError
  else if valueMatches f.ty v then .ok v else .error .typeError

/-- Modelled from the spec: the per-field loop of the Type Reconciliation Pass
(spec section 4.4) over the declared fields in order.  Non-strict mode is the
deliberately permissive fallback (spec section 7): it accepts each effective
value as-is (an absent field silently keeps its default, per the observed
behaviour the spec directs to preserve in section 9); strict mode applies the
per-field check. -/
def reconcileFields (fields : List Field) (r : Record) (strict : Bool) :
    Except ErrKind Record :=
  match fields with
  | [] => .ok []
  | f :: rest =>
    if strict then
      match checkFieldStrict f (effValue r f) with
      | .error e => .error e
      | .ok v => (reconcileFields rest r strict).map (fun out => (f.name, v) :: out)
    else
      (reconcileFields rest r strict).map (fun out => (f.name, effValue r f) :: out)

/-- Record entries whose keys name no declared field (attached to the result
as extra attributes when the shape check lets them through). -/
def extraEntries (s : Schema) (r : Record) : Record :=
  r.filter (fun p => isExtraKey s p.1)

/-- Modelled from the spec: `parse_typed_args(raw_record, schema_class,
strict)` (spec sections 4.4 and 6), the Type Reconciliation Pass over an
already-parsed loosely-typed record; the implementation module is absent from
the sources.  The successful result assigns every declared field its
reconciled value in declaration order, followed by whatever extra entries were
tolerated. -/
def parse_typed_args (r : Record) (s : Schema) (strict : Bool) :
    Except ErrKind Record :=
  match checkExtras s r strict with
  | .error e => .error e
  | .ok _ => (reconcileFields s.fields r strict).map (fun out => out ++ extraEntries s r)

/- Basic lemmas about the reconciliation pass. -/

theorem checkFieldStrict_ok_eq (f : Field) (v w : Value)
    (h : checkFieldStrict f v = .ok w) : w = v := by
  unfold checkFieldStrict at h
  split_ifs at h
  cases h
  rfl

theorem reconcileFields_nonstrict (fields : List Field) (r : Record) :
    reconcileFields fields r false = .ok (fields.map (fun f => (f.name, effValue r f))) := by
  induction fields with
  | nil => rfl
  | cons f rest ih => simp [reconcileFields, ih, Except.map]

theorem reconcileFields_strict_ok (fields : List Field) (r : Record) (out : Record)
    (h : reconcileFields fields r true = .ok out) :
    reconcileFields fields r false = .ok out := by
  induction fields generalizing out with
  | nil => simpa [reconcileFields] using h
  | cons f rest ih =>
    simp only [reconcileFields, if_pos] at h ⊢
    cases hc : checkFieldStrict f (effValue r f) with
    | error e => rw [hc] at h; cases h
    | ok v =>
      rw [hc] at h
      cases hr : reconcileFields rest r true with
      | error e => rw [hr] at h; cases h
      | ok out0 =>
        rw [hr] at h
        simp only [Except.map] at h
        cases h
        have hv := checkFieldStrict_ok_eq f _ v hc
        rw [ih out0 hr]
        simp [Except.map, hv]

theorem reconcileFields_strict_error_kind (fields : List Field) (r : Record) (e : ErrKind)
    (h : reconcileFields fields r true = .error e) : e = .typeError := by
  induction fields generalizing e with
  | nil => simp [reconcileFields] at h
  | cons f rest ih =>
    simp only [reconcileFields, if_pos] at h
    cases hc : checkFieldStrict f (effValue r f) with
    | error e0 =>
      rw [hc] at h
      cases h
      unfold checkFieldStrict at hc
      split_ifs at hc
      · cases hc; rfl
      · cases hc; rfl
    | ok v =>
      rw [hc] at h
      cases hr : reconcileFields rest r true with
      | error e1 =>
        rw [hr] at h
        simp only [Except.map] at h
        cases h
        exact ih _ hr
      | ok out0 => rw [hr] at h; simp [Except.map] at h

theorem reconcileFields_strict_untyped_not_ok (fields : List Field) (r : Record)
    (f : Field) (hf : f ∈ fields) (hty : f.ty = .untyped) (out : Record) :
    reconcileFields fields r true ≠ .ok out := by
  induction fields generalizing out with
  | nil => cases hf
  | cons g rest ih =>
    intro h
    simp only [reconcileFields, if_pos] at h
    cases hc : checkFieldStrict g (effValue r g) with
    | error e => rw [hc] at h; cases h
    | ok v =>
      rw [hc] at h
      rcases List.mem_cons.mp hf with hgf | hrest
      · subst hgf
        unfold checkFieldStrict at hc
        rw [if_pos hty] at hc
        cases hc
      · cases hr : reconcileFields rest r true with
        | error e => rw [hr] at h; simp [Except.map] at h
        | ok out0 => exact ih hrest out0 hr

theorem noExtra_of_declared (s : Schema) (r : Record)
    (h : ∀ k ∈ r.map Prod.fst, (declaredNames s).contains k = true) :
    r.find? (fun p => isExtraKey s p.1) = none := by
  rw [List.find?_eq_none]
  intro p hp
  have hc := h p.1 (List.mem_map.mpr ⟨p, hp, rfl⟩)
  have hx : isExtraKey s p.1 = false := by unfold isExtraKey; rw [hc]; rfl
  simp [hx]

theorem extraEntries_eq_nil (s : Schema) (r : Record)
    (h : r.find? (fun p => isExtraKey s p.1) = none) : extraEntries s r = [] := by
  rw [List.find?_eq_none] at h
  unfold extraEntries
  rw [List.filter_eq_nil_iff]
  intro p hp
  simpa using h p hp

theorem checkExtras_ok_of_none (s : Schema) (r : Record) (b : Bool)
    (h : r.find? (fun p => isExtraKey s p.1) = none) : checkExtras s r b = .ok () := by
  unfold checkExtras
  rw [h]

theorem checkExtras_strict_ok_none (s : Schema) (r : Record)
    (h : checkExtras s r true = .ok ()) :
    r.find? (fun p => isExtraKey s p.1) = none := by
  unfold checkExtras at h
  split at h
  · assumption
  · simp at h

/-
The token-parsing engine.  The spec places the engine itself out of scope
(section 1: "a pre-existing black box") but fixes its interface (section 6)
and, through the scenarios, its observable behaviour; the model below is the
minimal engine satisfying that contract.
-/

/-- Modelled from the spec: one slot registered on the token-parsing engine
(spec section 6, `register_positional` / `register_optional`): a destination
name, the flag aliases (empty for a positional slot), the action, `nargs`,
`const`, the default stored when the slot is never supplied, and the token
converter. -/
structure Slot where
  dest : String
  flags : List String
  action : ActionKind
  nargs : Option NargsSpec
  const : Option Value
  dflt : Value
  conv : TypeConv
  deriving DecidableEq

/-- Modelled from the spec: the engine's parser tree — registered slots plus
named nested subcommand engines (spec section 6: "must support nested
subcommand registration"). -/
inductive Engine where
  | mk (slots : List Slot) (subs : List (String × Engine))

/-- The slots registered on an engine. -/
def Engine.slots : Engine → List Slot
  | .mk s _ => s

/-- The subcommand engines registered on an engine. -/
def Engine.subs : Engine → List (String × Engine)
  | .mk _ s => s

/-- Whether a token is dash-led, i.e. names an optional flag (computed over
the character list so that concrete parses reduce definitionally). -/
def dashLed (t : String) : Bool :=
  match t.data with
  | [] => false
  | c :: _ => c = '-'

/-- Accumulate decimal digits into a natural number; fails on a non-digit. -/
def natOfDigitsAux : List Char → Nat → Option Nat
  | [], acc => some acc
  | c :: cs, acc =>
    if c.isDigit then natOfDigitsAux cs (acc * 10 + (c.toNat - 48)) else none

/-- Modelled from the spec: the integer token converter (the descriptor's
`type=int`): an optional leading minus sign followed by at least one decimal
digit. -/
def parseIntTok (s : String) : Option Int :=
  match s.data with
  | [] => none
  | '-' :: [] => none
  | '-' :: cs => (natOfDigitsAux cs 0).map (fun n => -(n : Int))
  | cs => (natOfDigitsAux cs 0).map (fun n => (n : Int))

/-- Apply a slot's token converter to one raw token. -/
def convertTok : TypeConv → String → Option Value
  | .convStr, s => some (.vstr s)
  | .convInt, s => (parseIntTok s).map (fun n => .vint n)

/-- Replace the value stored under `k`, or append the binding if absent. -/
def setUpd : Record → String → Value → Record
  | [], k, v => [(k, v)]
  | p :: rest, k, v => if p.1 == k then (k, v) :: rest else p :: setUpd rest k v

/-- The first slot whose flag aliases contain the token, if any. -/
def findFlagSlot (slots : List Slot) (t : String) : Option Slot :=
  slots.find? (fun sl => sl.flags.contains t)

/-- The positional slots of a slot list, in registration order. -/
def posSlots (slots : List Slot) : List Slot :=
  slots.filter (fun sl => sl.flags.isEmpty)

/-- Modelled from the spec: at end of parsing, operands are matched against
the positional slots in registration order; a plain positional consumes
exactly one operand, a `nargs="+"` positional consumes all remaining operands
(at least one).  Leftover or missing operands are a parse failure. -/
def assignPositionals : List Slot → List String → Option Record
  | [], [] => some []
  | [], _ :: _ => none
  | sl :: rest, ops =>
    match sl.nargs with
    | some .plus =>
      if rest.isEmpty && !ops.isEmpty then
        (ops.mapM (convertTok sl.conv)).map (fun vs => [(sl.dest, Value.vlist vs)])
      else none
    | none =>
      match ops with
      | [] => none
      | o :: more =>
        match convertTok sl.conv o with
        | none => none
        | some v => (assignPositionals rest more).map (fun out => (sl.dest, v) :: out)

/-- Modelled from the spec: the record an engine emits once its tokens are
exhausted — one entry per registered slot (spec section 3, "Loosely-typed
record"): a positional slot takes its matched operand, every other slot takes
its accumulated update or, when never supplied, its default. -/
def finalize (e : Engine) (upd : Record) (ops : List String) : Option Record :=
  (assignPositionals (posSlots e.slots) ops).map (fun posRec =>
    e.slots.map (fun sl =>
      if sl.flags.isEmpty then (sl.dest, (lookupRec posRec sl.dest).getD sl.dflt)
      else (sl.dest, (lookupRec upd sl.dest).getD sl.dflt)))

/-- Modelled from the spec: the engine's token loop (spec sections 5 and 6):
a dash-led token selects the optional slot carrying that flag and performs its
action (`store` consuming the following value tokens, `store_true` /
`store_false` / `store_const` writing a fixed value, `count` incrementing from
the default, `append` / `append_const` growing a list); a bare token either
selects a subcommand — whose engine consumes the remaining tokens, its record
merged after the parent's (spec section 4.5: one flattened record) — or is
kept as an operand for the positional slots.  `fuel` bounds the iteration
count; one token is consumed per step, so `tokens.length` suffices. -/
def engineParseAux (fuel : Nat) (e : Engine) (toks : List String) (upd : Record)
    (ops : List String) : Option Record :=
  match fuel, toks with
  | _, [] => finalize e upd ops
  | 0, _ :: _ => none
  | fuel0 + 1, t :: rest =>
    if dashLed t then
      match findFlagSlot e.slots t with
      | none => none
      | some sl =>
        match sl.action with
        | .storeTrue => engineParseAux fuel0 e rest (setUpd upd sl.dest (.vbool true)) ops
        | .storeFalse => engineParseAux fuel0 e rest (setUpd upd sl.dest (.vbool false)) ops
        | .storeConst =>
          engineParseAux fuel0 e rest (setUpd upd sl.dest (sl.const.getD .vnone)) ops
        | .count =>
          let cur := (lookupRec upd sl.dest).getD sl.dflt
          let n : Int := match cur with | .vint m => m | _ => 0
          engineParseAux fuel0 e rest (setUpd upd sl.dest (.vint (n + 1))) ops
        | .appendConst =>
          let cur := (lookupRec upd sl.dest).getD sl.dflt
          let xs := match cur with | .vlist ys => ys | _ => []
          engineParseAux fuel0 e rest
            (setUpd upd sl.dest (.vlist (xs ++ [sl.const.getD .vnone]))) ops
        | .append =>
          match rest with
          | [] => none
          | x :: rest2 =>
            match convertTok sl.conv x with
            | none => none
            | some v =>
              let cur := (lookupRec upd sl.dest).getD sl.dflt
              let xs := match cur with | .vlist ys => ys | _ => []
              engineParseAux fuel0 e rest2 (setUpd upd sl.dest (.vlist (xs ++ [v]))) ops
        | .store =>
          match sl.nargs with
          | some .plus =>
            let taken := rest.takeWhile (fun s => !(dashLed s))
            if taken.isEmpty then none
            else
              match taken.mapM (convertTok sl.conv) with
              | none => none
              | some vs =>
                engineParseAux fuel0 e (rest.drop taken.length)
                  (setUpd upd sl.dest (.vlist vs)) ops
          | none =>
            match rest with
            | [] => none
            | x :: rest2 =>
              match convertTok sl.conv x with
              | none => none
              | some v => engineParseAux fuel0 e rest2 (setUpd upd sl.dest v) ops
    else
      match e.subs.find? (fun p => p.1 == t) with
      | some sub =>
        match finalize e upd ops with
        | none => none
        | some base =>
          match engineParseAux fuel0 sub.2 rest [] [] with
          | none => none
          | some subRec => some (base ++ subRec)
      | none => engineParseAux fuel0 e rest upd (ops ++ [t])

/-- Modelled from the spec: `parse(tokens) -> mapping` on the engine (spec
section 6); failure (`none`) is the engine rejecting the token sequence. -/
def engineParse (e : Engine) (toks : List String) : Option Record :=
  engineParseAux toks.length e toks [] []

/-
Parser construction (spec section 4.3) and the typed parser itself.
-/

/-- Strip every leading dash of a flag name. -/
def stripDashes (s : String) : String :=
  ⟨s.data.dropWhile (fun c => c = '-')⟩

/-- Modelled from the spec: destination resolution for an optional slot (spec
section 4.2): the explicit `dest` if given, else derived from the primary flag
name (leading dashes stripped, internal dashes normalized), else the declared
field name. -/
def deriveDest (fieldName : String) (d : ArgumentDescriptor) : String :=
  match d.dest with
  | some s => s
  | none =>
    match d.flagNames with
    | [] => fieldName
    | n :: _ => ⟨(stripDashes n).data.map (fun c => if c = '-' then '_' else c)⟩

/-- Modelled from the spec: how the Parser Builder turns one Argument
Descriptor into an engine slot (spec section 4.3, step 2).  A supplied name
with no leading dash makes the slot positional (the scenarios register
positionals by naming the field, e.g. `pos_arg`); otherwise the slot is
optional, its flags being the supplied flag forms — or `--` plus the field
name when none were supplied, as the scenarios exercise — plus the single-dash
shortcut alias.  `store_true` and `store_false` slots default to false and
true respectively when no default is given, as the engine's contract fixes. -/
def slotOfDescriptor (fieldName : String) (d : ArgumentDescriptor) : Slot :=
  let action := d.action.getD .store
  let conv := d.typeConv.getD .convStr
  let dfltV : Value :=
    match action, d.defaultVal with
    | .storeTrue, none => .vbool false
    | .storeFalse, none => .vbool true
    | _, some v => v
    | _, none => .vnone
  let isPos : Bool :=
    match d.flagNames with
    | n :: _ => !(dashLed n)
    | [] => false
  if isPos then
    { dest := d.dest.getD (d.flagNames.headD fieldName), flags := [],
      action := action, nargs := d.nargs, const := d.const, dflt := dfltV,
      conv := conv }
  else
    { dest := deriveDest fieldName d,
      flags := (if d.flagNames.isEmpty then ["--" ++ fieldName] else d.flagNames) ++
        (match d.shortcut with | some sc => [sc] | none => []),
      action := action, nargs := d.nargs, const := d.const, dflt := dfltV,
      conv := conv }

/-- Append a slot to the engine's registered slots. -/
def addSlot (e : Engine) (sl : Slot) : Engine :=
  .mk (e.slots ++ [sl]) e.subs

/-- Modelled from the spec: step 1 of the Parser Builder (spec section 4.3):
a field whose default is not an Argument Descriptor is skipped — left to the
reconciliation pass — while a descriptor field registers a slot on the
engine. -/
def registerField (e : Engine) (f : Field) : Engine :=
  match f.dflt with
  | .plain _ => e
  | .desc d => addSlot e (slotOfDescriptor f.name d)

/-- Modelled from the spec: the Parser Builder walks the field list in
declaration order, registering a slot for each descriptor-bound field (spec
section 4.3). -/
def buildEngine (e : Engine) (s : Schema) : Engine :=
  s.fields.foldl registerField e

/-- A typed parser: the configured engine, the schema retained for
reconciliation, and the strictness policy (spec section 4.3, "Result"). -/
structure TypedParser where
  engine : Engine
  schema : Schema
  strict : Bool

/-- Modelled from the spec: `from_parser(existing_engine, schema_class,
strict)` (spec sections 4.3 and 4.5) — composition with an
externally-constructed engine. -/
def TypedParser.fromParser (e : Engine) (s : Schema) (strict : Bool) : TypedParser :=
  ⟨buildEngine e s, s, strict⟩

/-- The empty engine: no slots, no subcommands. -/
def emptyEngine : Engine := .mk [] []

/-- Modelled from the spec: `create_parser(schema_class, strict)` (spec
section 4.3) — build a parser over a fresh engine. -/
def TypedParser.createParser (s : Schema) (strict : Bool) : TypedParser :=
  TypedParser.fromParser emptyEngine s strict

/-- Modelled from the spec: `parse_args(tokens)` (spec section 4.4): the
engine parses the tokens into a loosely-typed record (`none` when it rejects
them), then the Type Reconciliation Pass runs under the parser's strictness
policy. -/
def TypedParser.parse_args (p : TypedParser) (toks : List String) :
    Option (Except ErrKind Record) :=
  (engineParse p.engine toks).map (fun r => parse_typed_args r p.schema p.strict)

/-
Concrete schemas and engines from the test scenarios.
-/

/-- The fully-typed schema of the `setup_correct_args` scenario: six
descriptor-bound fields, every one statically annotated. -/
def correctCfg : Schema :=
  ⟨[⟨"str_arg", .prim .pstr,
      .desc (add_argument [] none none none none none (some (.vstr "some_value"))
        (some .convStr) none)⟩,
    ⟨"opt_str_arg", .opt (.prim .pstr),
      .desc (add_argument [] none none none none none none (some .convStr) none)⟩,
    ⟨"bool_arg", .prim .pbool,
      .desc (add_argument [] (some "-b") none (some .storeTrue) none none none none none)⟩,
    ⟨"pos_arg", .prim .pint,
      .desc (add_argument ["pos_arg"] none none none none none none (some .convInt) none)⟩,
    ⟨"multi_pos_arg", .seq (.prim .pstr),
      .desc (add_argument ["multi_pos_arg"] none none none (some .plus) none none
        (some .convStr) none)⟩,
    ⟨"default_arg", .prim .pstr,
      .desc (add_argument [] none none none none none (some (.vstr "defaultvalue"))
        (some .convStr) none)⟩], false⟩

/-- The valid token sequence of the `setup_correct_args` scenario. -/
def correctInputs : List String :=
  ["--str_arg", "some_other_value", "-b", "1", "a", "b"]

/-- The record the engine emits for `correctInputs` on the engine built from
`correctCfg`. -/
def correctRecord : Record :=
  [("str_arg", .vstr "some_other_value"), ("opt_str_arg", .vnone),
   ("bool_arg", .vbool true), ("pos_arg", .vint 1),
   ("multi_pos_arg", .vlist [.vstr "a", .vstr "b"]),
   ("default_arg", .vstr "defaultvalue")]

/-- The schema of the `setup_incorrect_args` scenario: one field with declared
type `str` but default `None`. -/
def incorrectCfg : Schema :=
  ⟨[⟨"opt_str_arg", .prim .pstr,
      .desc (add_argument [] none none none none none none (some .convStr) none)⟩], false⟩

/-- The schema of the `setup_untyped_args` scenario: one descriptor-bound
field with no static annotation and default "content". -/
def untypedCfg : Schema :=
  ⟨[⟨"opt_str_arg", .untyped,
      .desc (add_argument [] none none none none none (some (.vstr "content"))
        (some .convStr) none)⟩], false⟩

/-- The record of the `get_typecheck_args` scenario: the external engine
parsed `--foo` with a `store_true` slot `foo` and a `store_false` slot `bar`,
yielding both entries true. -/
def typecheckRecord : Record :=
  [("foo", .vbool true), ("bar", .vbool true)]

/-- The open-shaped schema of `setup_incorrect_typecheck_without_slots`:
only `foo` is declared; the representation admits extra attributes. -/
def openCfg : Schema :=
  ⟨[⟨"foo", .prim .pbool, .plain .vnone⟩], true⟩

/-- The closed-shaped schema of `setup_incorrect_typecheck`: only `foo` is
declared; the representation has a fixed attribute set. -/
def closedCfg : Schema :=
  ⟨[⟨"foo", .prim .pbool, .plain .vnone⟩], false⟩

/-- The externally-constructed engine of the mixed scenario: `--foo`
(`store_true`) and `--bar` (`store_false`) already registered. -/
def mixEngine : Engine :=
  .mk [⟨"foo", ["--foo"], .storeTrue, none, none, .vbool false, .convStr⟩,
       ⟨"bar", ["--bar"], .storeFalse, none, none, .vbool true, .convStr⟩] []

/-- The schema of the mixed scenario: a descriptor-bound `bool_arg` plus plain
fields `foo` and `bar` to be filled from the external engine's output. -/
def mixCfg : Schema :=
  ⟨[⟨"bool_arg", .prim .pbool,
      .desc (add_argument [] (some "-b") none (some .storeTrue) none none none none none)⟩,
    ⟨"foo", .prim .pbool, .plain .vnone⟩,
    ⟨"bar", .prim .pint, .plain .vnone⟩], false⟩

/-- Subcommand `a` of the subparser scenario: one positional integer slot
`bar`. -/
def subEngineA : Engine :=
  .mk [⟨"bar", [], .store, none, none, .vint 11, .convInt⟩] []

/-- Subcommand `b` of the subparser scenario: one optional flag `--baz`. -/
def subEngineB : Engine :=
  .mk [⟨"baz", ["--baz"], .store, none, none, .vnone, .convStr⟩] []

/-- The pre-built engine of the subparser scenario: top-level `--foo`
(`store_true`) plus subcommands `a` and `b`. -/
def topEngine : Engine :=
  .mk [⟨"foo", ["--foo"], .storeTrue, none, none, .vbool false, .convStr⟩]
      [("a", subEngineA), ("b", subEngineB)]

/-- The schema of the subparser scenario: `foo`, plus Optional-typed `bar` and
`baz` belonging to the two subcommands. -/
def subCfg : Schema :=
  ⟨[⟨"foo", .prim .pbool, .plain .vnone⟩,
    ⟨"bar", .opt (.prim .pint), .plain .vnone⟩,
    ⟨"baz", .opt (.prim .pstr), .plain .vnone⟩], false⟩

/-- The schema of the `action="count"` scenario: `verbose` (`-v`, no default)
and `start10` (`-s`, default 10). -/
def countCfg : Schema :=
  ⟨[⟨"verbose", .opt (.prim .pint),
      .desc (add_argument [] (some "-v") none (some .count) none none none none none)⟩,
    ⟨"start10", .prim .pint,
      .desc (add_argument [] (some "-s") none (some .count) none none
        (some (.vint 10)) none none)⟩], false⟩

/-- The schema used to probe handling of a declared field absent from the raw
record: a single Optional-int field `bar` with default none (closed shape). -/
def missingFieldCfg : Schema :=
  ⟨[⟨"bar", .opt (.prim .pint), .plain .vnone⟩], false⟩

/-- The single field of `missingFieldCfg`. -/
def barFieldOpt : Field := ⟨"bar", .opt (.prim .pint), .plain .vnone⟩

/-- The untyped field of `untypedCfg`. -/
def untypedFld : Field :=
  ⟨"opt_str_arg", .untyped,
    .desc (add_argument [] none none none none none (some (.vstr "content"))
      (some .convStr) none)⟩

/-
Claims.
-/

/-- C1: for every schema in which every declared field carries a static type
annotation and every field is consumed by the engine (its destination name
appears in the raw record), reconciling the same record in strict and in
non-strict mode yields identical results: whenever strict parsing succeeds,
non-strict parsing returns the very same instance.  Since the engine is a
deterministic function of the token sequence, this is the claimed equivalence
on every valid token sequence. -/
theorem strict_nonstrict_agree (s : Schema) (r : Record) (res : Record)
    (_hty : ∀ f ∈ s.fields, f.ty ≠ .untyped)
    (_hcons : ∀ f ∈ s.fields, (lookupRec r f.name).isSome = true)
    (hok : parse_typed_args r s true = .ok res) :
    parse_typed_args r s false = .ok res := by
  unfold parse_typed_args at hok ⊢
  cases hce : checkExtras s r true with
  | error e => rw [hce] at hok; cases hok
  | ok u =>
    cases u
    rw [hce] at hok
    have hnone := checkExtras_strict_ok_none s r hce
    rw [checkExtras_ok_of_none s r false hnone]
    cases hr : reconcileFields s.fields r true with
    | error e => rw [hr] at hok; simp [Except.map] at hok
    | ok out =>
      rw [hr] at hok
      rw [reconcileFields_strict_ok s.fields r out hr]
      exact hok

/-- Witness for C1: the fully-typed, fully-consumed correct-args scenario,
whose valid token sequence produces `correctRecord`; strict and non-strict
reconciliation both return it unchanged. -/
theorem strict_nonstrict_agree_witness :
    (∀ f ∈ correctCfg.fields, f.ty ≠ .untyped) ∧
    (∀ f ∈ correctCfg.fields, (lookupRec correctRecord f.name).isSome = true) ∧
    parse_typed_args correctRecord correctCfg true = .ok correctRecord ∧
    parse_typed_args correctRecord correctCfg false = .ok correctRecord :=
  ⟨by decide, by decide, by rfl,
    strict_nonstrict_agree correctCfg correctRecord correctRecord (by decide)
      (by decide) (by rfl)⟩

/-- C2 counterexample: a declared field (`bar`, Optional int, default none)
whose name is entirely absent from the raw record does not make strict-mode
reconciliation fail with an AttributeError-kind error, contrary to the claim:
on the empty record, strict parsing succeeds with `bar` at its default. -/
theorem missing_field_strict_cx :
    parse_typed_args [] missingFieldCfg true = .ok [("bar", Value.vnone)] ∧
    parse_typed_args [] missingFieldCfg true ≠ .error .attributeError := by
  constructor
  · rfl
  · intro h
    have h1 : parse_typed_args [] missingFieldCfg true = .ok [("bar", Value.vnone)] := rfl
    rw [h1] at h
    cases h

/-- C2 (amended): for every declared field whose name is absent from the raw
record entirely, the reconciliation pass leaves the field at its default in
both modes; non-strict mode raises no error (provided the record introduces no
undeclared keys, which would fail for an unrelated reason), and strict mode
never raises an AttributeError-kind error for it — the default merely remains
subject to the strict type check. -/
theorem missing_field_left_at_default (s : Schema) (r : Record) (f : Field)
    (_hf : f ∈ s.fields) (habs : lookupRec r f.name = none) :
    effValue r f = fieldDefault f ∧
    (∀ e, parse_typed_args r s true = .error e → e ≠ .attributeError) ∧
    ((∀ k ∈ r.map Prod.fst, (declaredNames s).contains k = true) →
      parse_typed_args r s false = .ok (s.fields.map (fun g => (g.name, effValue r g)))) := by
  refine ⟨?_, ?_, ?_⟩
  · unfold effValue
    rw [habs]
    rfl
  · intro e he
    unfold parse_typed_args at he
    cases hce : checkExtras s r true with
    | error e0 =>
      rw [hce] at he
      cases he
      unfold checkExtras at hce
      split at hce
      · cases hce
      · simp only [if_pos] at hce
        cases hce
        simp
    | ok u =>
      cases u
      rw [hce] at he
      cases hr : reconcileFields s.fields r true with
      | error e1 =>
        rw [hr] at he
        simp only [Except.map] at he
        cases he
        have := reconcileFields_strict_error_kind s.fields r _ hr
        rw [this]
        simp
      | ok out =>
        rw [hr] at he
        simp [Except.map] at he
  · intro hdecl
    have hnone := noExtra_of_declared s r hdecl
    unfold parse_typed_args
    rw [checkExtras_ok_of_none s r false hnone, reconcileFields_nonstrict]
    simp [Except.map, extraEntries_eq_nil s r hnone]

/-- Witness for C2 (amended) at the concrete missing-field scenario: `bar` is
absent from the empty record, keeps its default none, and non-strict parsing
succeeds. -/
theorem missing_field_left_at_default_witness :
    (barFieldOpt ∈ missingFieldCfg.fields) ∧
    effValue [] barFieldOpt = fieldDefault barFieldOpt ∧
    parse_typed_args [] missingFieldCfg false =
      .ok (missingFieldCfg.fields.map (fun g => (g.name, effValue [] g))) :=
  ⟨by decide,
    (missing_field_left_at_default missingFieldCfg [] barFieldOpt (by decide) rfl).1,
    (missing_field_left_at_default missingFieldCfg [] barFieldOpt (by decide) rfl).2.2
      (by decide)⟩

/-- C3 counterexample: the claim asserts a strict-mode TypeError for every
input token sequence, but supplying a string value for the flag makes strict
parsing succeed: the configuration error is only detected on parses that
leave the field at none. -/
theorem none_default_nonoptional_cx :
    TypedParser.parse_args (TypedParser.createParser incorrectCfg true)
      ["--opt_str_arg", "x"] = some (.ok [("opt_str_arg", .vstr "x")]) ∧
    TypedParser.parse_args (TypedParser.createParser incorrectCfg true)
      ["--opt_str_arg", "x"] ≠ some (.error .typeError) := by
  constructor
  · rfl
  · intro h
    have h1 : TypedParser.parse_args (TypedParser.createParser incorrectCfg true)
        ["--opt_str_arg", "x"] = some (.ok [("opt_str_arg", .vstr "x")]) := rfl
    rw [h1] at h
    simp at h

/-- C3 (amended): for the schema declaring a field with explicit default none
but non-Optional declared type `str`, strict-mode parsing raises a
TypeError-kind error on every record that leaves the field at none — in
particular on the empty token sequence — while non-strict parsing of the
empty sequence raises no error and keeps the value none. -/
theorem none_default_nonoptional_strict (r : Record)
    (hvalnone : lookupRec r "opt_str_arg" = some .vnone)
    (hdecl : ∀ k ∈ r.map Prod.fst, (declaredNames incorrectCfg).contains k = true) :
    parse_typed_args r incorrectCfg true = .error .typeError ∧
    TypedParser.parse_args (TypedParser.createParser incorrectCfg true) [] =
      some (.error .typeError) ∧
    TypedParser.parse_args (TypedParser.createParser incorrectCfg false) [] =
      some (.ok [("opt_str_arg", Value.vnone)]) := by
  refine ⟨?_, rfl, rfl⟩
  have hnone := noExtra_of_declared _ _ hdecl
  unfold parse_typed_args
  rw [checkExtras_ok_of_none _ _ _ hnone]
  simp [incorrectCfg, reconcileFields, checkFieldStrict, effValue, hvalnone,
    valueMatches, primMatches, Except.map]

/-- Witness for C3 (amended): the record the engine emits for the empty token
sequence leaves the field at none, and strict reconciliation rejects it with
TypeError-kind. -/
theorem none_default_nonoptional_strict_witness :
    lookupRec [("opt_str_arg", Value.vnone)] "opt_str_arg" = some Value.vnone ∧
    parse_typed_args [("opt_str_arg", Value.vnone)] incorrectCfg true =
      .error .typeError :=
  ⟨rfl, (none_default_nonoptional_strict [("opt_str_arg", Value.vnone)] rfl
    (by decide)).1⟩

/-- C4: for every declared field carrying no static annotation but for which
a value exists in the raw record (and the record introduces no undeclared
keys), strict-mode reconciliation fails with a TypeError-kind error, while
non-strict reconciliation of the identical schema succeeds and accepts the raw
value as-is. -/
theorem untyped_field_policy (s : Schema) (r : Record) (f : Field) (v : Value)
    (hf : f ∈ s.fields) (hty : f.ty = .untyped)
    (hval : lookupRec r f.name = some v)
    (hdecl : ∀ k ∈ r.map Prod.fst, (declaredNames s).contains k = true) :
    parse_typed_args r s true = .error .typeError ∧
    parse_typed_args r s false = .ok (s.fields.map (fun g => (g.name, effValue r g))) ∧
    effValue r f = v := by
  have hnone := noExtra_of_declared s r hdecl
  refine ⟨?_, ?_, ?_⟩
  · unfold parse_typed_args
    rw [checkExtras_ok_of_none _ _ _ hnone]
    cases hr : reconcileFields s.fields r true with
    | ok out => exact absurd hr (reconcileFields_strict_untyped_not_ok s.fields r f hf hty out)
    | error e =>
      have := reconcileFields_strict_error_kind s.fields r e hr
      subst this
      rfl
  · unfold parse_typed_args
    rw [checkExtras_ok_of_none _ _ _ hnone, reconcileFields_nonstrict]
    simp [Except.map, extraEntries_eq_nil s r hnone]
  · unfold effValue
    rw [hval]
    rfl

/-- Witness for C4: the untyped-args scenario, whose engine output binds the
unannotated field to "content"; strict reconciliation rejects it, non-strict
accepts it as-is. -/
theorem untyped_field_policy_witness :
    (untypedFld ∈ untypedCfg.fields) ∧
    parse_typed_args [("opt_str_arg", Value.vstr "content")] untypedCfg true =
      .error .typeError ∧
    effValue [("opt_str_arg", Value.vstr "content")] untypedFld = .vstr "content" :=
  ⟨by decide,
    (untyped_field_policy untypedCfg [("opt_str_arg", Value.vstr "content")]
      untypedFld (.vstr "content") (by decide) rfl rfl (by decide)).1,
    (untyped_field_policy untypedCfg [("opt_str_arg", Value.vstr "content")]
      untypedFld (.vstr "content") (by decide) rfl rfl (by decide)).2.2⟩

/-- C5: for every open-shaped schema and every raw record containing an entry
whose name is not a declared field, strict-mode reconciliation fails with a
KeyError-kind error, while non-strict reconciliation performs no
extra-attribute check and succeeds. -/
theorem open_shape_extra_policy (s : Schema) (r : Record)
    (hopen : s.openShape = true)
    (hex : ∃ p ∈ r, isExtraKey s p.1 = true) :
    parse_typed_args r s true = .error .keyError ∧
    ∃ res, parse_typed_args r s false = .ok res := by
  have hfind : (r.find? (fun p => isExtraKey s p.1)).isSome :=
    List.find?_isSome.mpr (by simpa using hex)
  obtain ⟨q, hq⟩ := Option.isSome_iff_exists.mp hfind
  constructor
  · unfold parse_typed_args checkExtras
    rw [hq]
    rfl
  · unfold parse_typed_args checkExtras
    rw [hq, reconcileFields_nonstrict]
    simp [hopen, Except.map]

/-- Witness for C5: the slots-free typecheck scenario — `bar` is produced by
the engine but not declared; strict fails with KeyError-kind, non-strict
succeeds. -/
theorem open_shape_extra_policy_witness :
    openCfg.openShape = true ∧
    (∃ p ∈ typecheckRecord, isExtraKey openCfg p.1 = true) ∧
    parse_typed_args typecheckRecord openCfg true = .error .keyError ∧
    (∃ res, parse_typed_args typecheckRecord openCfg false = .ok res) :=
  ⟨rfl, by decide,
    (open_shape_extra_policy openCfg typecheckRecord rfl (by decide)).1,
    (open_shape_extra_policy openCfg typecheckRecord rfl (by decide)).2⟩

/-- C6: composing with the pre-built subcommand engine, selecting subcommand
`a` with positional `12` yields foo false, bar 12, baz none, and selecting
subcommand `b` with `--baz Z` yields foo false, bar none, baz "Z"; the fields
of the unselected subcommand remain at their declared default and never cause
an error, even in strict mode. -/
theorem subcommand_composition :
    TypedParser.parse_args (TypedParser.fromParser topEngine subCfg true) ["a", "12"] =
      some (.ok [("foo", .vbool false), ("bar", .vint 12), ("baz", .vnone)]) ∧
    TypedParser.parse_args (TypedParser.fromParser topEngine subCfg true)
      ["b", "--baz", "Z"] =
      some (.ok [("foo", .vbool false), ("bar", .vnone), ("baz", .vstr "Z")]) :=
  ⟨rfl, rfl⟩

/-- C8: a field whose default is not an Argument Descriptor is skipped during
slot registration, and in the mixed scenario — an externally constructed
engine already carrying `--foo` and `--bar`, combined with a schema declaring
descriptor field `bool_arg` and plain fields `foo` and `bar` — strict parsing
of `-b --bar` yields bool_arg true, foo false, bar false, the plain fields
being filled by the reconciliation pass from the engine's output. -/
theorem plain_default_skips_registration :
    (∀ (e : Engine) (f : Field) (v : Value), f.dflt = .plain v → registerField e f = e) ∧
    TypedParser.parse_args (TypedParser.fromParser mixEngine mixCfg true) ["-b", "--bar"] =
      some (.ok [("bool_arg", .vbool true), ("foo", .vbool false),
        ("bar", .vbool false)]) := by
  constructor
  · intro e f v h
    unfold registerField
    rw [h]
  · rfl

/-- Witness for C8: registering the plain-default field `foo` leaves the
external engine untouched. -/
theorem plain_default_skips_registration_witness :
    registerField mixEngine ⟨"foo", .prim .pbool, .plain .vnone⟩ = mixEngine :=
  plain_default_skips_registration.1 mixEngine ⟨"foo", .prim .pbool, .plain .vnone⟩
    .vnone rfl

/-- C9: in strict mode, a declared field of type Optional(T) whose name is
entirely absent from the raw record passes the per-field check with its
default none and raises no error; consequently strict parsing of the
subcommand engine succeeds on the empty token sequence even though both
subcommand fields are missing from the engine's output. -/
theorem optional_missing_strict_ok :
    (∀ (f : Field) (r : Record) (T : TypeExpr), f.ty = .opt T →
      lookupRec r f.name = none → fieldDefault f = .vnone →
      checkFieldStrict f (effValue r f) = .ok .vnone) ∧
    TypedParser.parse_args (TypedParser.fromParser topEngine subCfg true) [] =
      some (.ok [("foo", .vbool false), ("bar", .vnone), ("baz", .vnone)]) := by
  constructor
  · intro f r T hty habs hdef
    have h1 : effValue r f = Value.vnone := by
      unfold effValue
      rw [habs, hdef]
      rfl
    rw [h1]
    unfold checkFieldStrict
    rw [hty]
    simp [valueMatches]
  · rfl

/-- Witness for C9: the Optional-int field `bar` against the empty record. -/
theorem optional_missing_strict_ok_witness :
    checkFieldStrict barFieldOpt (effValue [] barFieldOpt) = .ok .vnone :=
  optional_missing_strict_ok.1 barFieldOpt [] (.prim .pint) rfl rfl rfl

/-- C10: for a closed-shaped schema and a raw record containing an entry
whose name is not a declared field, reconciliation raises in both modes:
KeyError-kind in strict mode, AttributeError-kind in non-strict mode (the
extra attribute cannot be set on the fixed-shape instance); no best-effort
result is returned. -/
theorem closed_shape_extra_policy (s : Schema) (r : Record)
    (hclosed : s.openShape = false)
    (hex : ∃ p ∈ r, isExtraKey s p.1 = true) :
    parse_typed_args r s true = .error .keyError ∧
    parse_typed_args r s false = .error .attributeError := by
  have hfind : (r.find? (fun p => isExtraKey s p.1)).isSome :=
    List.find?_isSome.mpr (by simpa using hex)
  obtain ⟨q, hq⟩ := Option.isSome_iff_exists.mp hfind
  constructor
  · unfold parse_typed_args checkExtras
    rw [hq]
    rfl
  · unfold parse_typed_args checkExtras
    rw [hq]
    simp [hclosed]

/-- Witness for C10: the slots-based typecheck scenario — `bar` is produced
by the engine but not declared on the closed-shape schema. -/
theorem closed_shape_extra_policy_witness :
    closedCfg.openShape = false ∧
    (∃ p ∈ typecheckRecord, isExtraKey closedCfg p.1 = true) ∧
    parse_typed_args typecheckRecord closedCfg true = .error .keyError ∧
    parse_typed_args typecheckRecord closedCfg false = .error .attributeError :=
  ⟨rfl, by decide,
    (closed_shape_extra_policy closedCfg typecheckRecord rfl (by decide)).1,
    (closed_shape_extra_policy closedCfg typecheckRecord rfl (by decide)).2⟩

/-
The count-action claim requires reasoning about arbitrarily long flag
sequences, so we name the engine built from `countCfg` and prove update
lemmas for the engine's accumulator state.
-/

/-- The slot `countCfg` registers for `verbose`. -/
def verboseSlot : Slot :=
  ⟨"verbose", ["--verbose", "-v"], .count, none, none, .vnone, .convStr⟩

/-- The slot `countCfg` registers for `start10`. -/
def startSlot : Slot :=
  ⟨"start10", ["--start10", "-s"], .count, none, none, .vint 10, .convStr⟩

/-- The engine `createParser` builds from `countCfg`. -/
def countEngine : Engine := .mk [verboseSlot, startSlot] []

/-- The integer a stored value represents, falling back to `base` when the
entry is absent or not an integer. -/
def curInt (o : Option Value) (base : Int) : Int :=
  match o with
  | some (.vint k) => k
  | _ => base

/-- The counter value the engine's `count` action reads before incrementing:
the stored update, or the slot default `d` when none. -/
def countNext (o : Option Value) (d : Value) : Int :=
  match o.getD d with
  | .vint m => m
  | _ => 0

/-- Shape invariant for a count accumulator entry: absent or an integer. -/
def intShape (o : Option Value) : Prop :=
  o = none ∨ ∃ k : Int, o = some (.vint k)

/-- The final value of the `verbose` counter: none when never touched, else
the accumulated integer. -/
def vFinal (o : Option Value) (n : Nat) : Value :=
  if o = none ∧ n = 0 then .vnone else .vint (curInt o 0 + n)

/-- The final value of the `start10` counter: its default 10 plus the number
of occurrences. -/
def sFinal (o : Option Value) (n : Nat) : Value :=
  .vint (curInt o 10 + n)

theorem lookupRec_setUpd_self (u : Record) (k : String) (v : Value) :
    lookupRec (setUpd u k v) k = some v := by
  induction u with
  | nil => simp [setUpd, lookupRec, List.find?]
  | cons p rest ih =>
    unfold setUpd
    by_cases h : p.1 == k
    · rw [if_pos h]
      simp [lookupRec, List.find?]
    · rw [if_neg h]
      simp only [lookupRec, List.find?, h]
      exact ih

theorem lookupRec_setUpd_ne (u : Record) (k j : String) (v : Value)
    (hne : j ≠ k) : lookupRec (setUpd u k v) j = lookupRec u j := by
  have hkj : (k == j) = false := by
    simp only [beq_eq_false_iff_ne, ne_eq]
    exact fun hh => hne hh.symm
  induction u with
  | nil => simp [setUpd, lookupRec, List.find?, hkj]
  | cons p rest ih =>
    unfold setUpd
    by_cases hp : p.1 == k
    · rw [if_pos hp]
      have hpk : p.1 = k := by simpa using hp
      simp only [lookupRec, List.find?, hkj, hpk]
    · rw [if_neg hp]
      by_cases hpj : p.1 == j
      · simp only [lookupRec, List.find?, hpj]
      · simp only [lookupRec, List.find?, hpj]
        exact ih

/-- One engine step on `-s`: the `start10` counter is read and incremented. -/
theorem engine_step_s (upd : Record) (rest : List String) :
    engineParseAux (rest.length + 1) countEngine ("-s" :: rest) upd [] =
      engineParseAux rest.length countEngine rest
        (setUpd upd "start10"
          (.vint (countNext (lookupRec upd "start10") (.vint 10) + 1))) [] := rfl

/-- One engine step on `-v`: the `verbose` counter is read and incremented. -/
theorem engine_step_v (upd : Record) (rest : List String) :
    engineParseAux (rest.length + 1) countEngine ("-v" :: rest) upd [] =
      engineParseAux rest.length countEngine rest
        (setUpd upd "verbose"
          (.vint (countNext (lookupRec upd "verbose") .vnone + 1))) [] := rfl

/-- Exhausted tokens on the count engine: each slot reports its accumulated
update or its default. -/
theorem engine_count_nil (upd : Record) :
    engineParseAux 0 countEngine [] upd [] =
      some [("verbose", (lookupRec upd "verbose").getD .vnone),
            ("start10", (lookupRec upd "start10").getD (.vint 10))] := rfl

theorem countNext_vnone (o : Option Value) (h : intShape o) :
    countNext o .vnone = curInt o 0 := by
  rcases h with h | ⟨k, h⟩ <;> subst h <;> rfl

theorem countNext_vten (o : Option Value) (h : intShape o) :
    countNext o (.vint 10) = curInt o 10 := by
  rcases h with h | ⟨k, h⟩ <;> subst h <;> rfl

theorem vFinal_step (o : Option Value) (n : Nat) (h : intShape o) :
    vFinal (some (.vint (curInt o 0 + 1))) n = vFinal o (n + 1) := by
  rcases h with h | ⟨k, h⟩ <;> subst h <;> simp [vFinal, curInt] <;> omega

theorem sFinal_step (o : Option Value) (n : Nat) (h : intShape o) :
    sFinal (some (.vint (curInt o 10 + 1))) n = sFinal o (n + 1) := by
  rcases h with h | ⟨k, h⟩ <;> subst h <;> simp [sFinal, curInt] <;> omega

/-- The count engine on a sequence of `-s`/`-v` flags: each slot accumulates
one increment per occurrence on top of the running state. -/
theorem count_aux (toks : List String) :
    ∀ upd : Record,
    (∀ t ∈ toks, t = "-s" ∨ t = "-v") →
    intShape (lookupRec upd "verbose") →
    intShape (lookupRec upd "start10") →
    engineParseAux toks.length countEngine toks upd [] =
      some [("verbose", vFinal (lookupRec upd "verbose") (toks.count "-v")),
            ("start10", sFinal (lookupRec upd "start10") (toks.count "-s"))] := by
  induction toks with
  | nil =>
    intro upd _ hv hs
    simp only [List.length_nil, List.count_nil]
    rw [engine_count_nil upd]
    rcases hv with hv | ⟨k, hv⟩ <;> rcases hs with hs | ⟨m, hs⟩ <;>
      rw [hv, hs] <;> simp [vFinal, sFinal, curInt]
  | cons t rest ih =>
    intro upd hall hv hs
    have hrest : ∀ x ∈ rest, x = "-s" ∨ x = "-v" :=
      fun x hx => hall x (List.mem_cons_of_mem t hx)
    rcases hall t (List.mem_cons_self t rest) with ht | ht <;> subst ht
    · -- step on "-s"
      simp only [List.length_cons]
      rw [engine_step_s upd rest, countNext_vten _ hs]
      have hv2 : intShape (lookupRec
          (setUpd upd "start10" (.vint (curInt (lookupRec upd "start10") 10 + 1)))
          "verbose") := by
        rw [lookupRec_setUpd_ne _ _ _ _ (by decide)]
        exact hv
      have hs2 : intShape (lookupRec
          (setUpd upd "start10" (.vint (curInt (lookupRec upd "start10") 10 + 1)))
          "start10") := by
        rw [lookupRec_setUpd_self]
        exact Or.inr ⟨_, rfl⟩
      rw [ih _ hrest hv2 hs2]
      rw [lookupRec_setUpd_ne _ _ _ _ (by decide), lookupRec_setUpd_self]
      rw [sFinal_step _ _ hs]
      have hc1 : ("-s" :: rest).count "-v" = rest.count "-v" := by
        simp [List.count_cons]
      have hc2 : ("-s" :: rest).count "-s" = rest.count "-s" + 1 := by
        simp [List.count_cons]
      rw [hc1, hc2]
    · -- step on "-v"
      simp only [List.length_cons]
      rw [engine_step_v upd rest, countNext_vnone _ hv]
      have hv2 : intShape (lookupRec
          (setUpd upd "verbose" (.vint (curInt (lookupRec upd "verbose") 0 + 1)))
          "verbose") := by
        rw [lookupRec_setUpd_self]
        exact Or.inr ⟨_, rfl⟩
      have hs2 : intShape (lookupRec
          (setUpd upd "verbose" (.vint (curInt (lookupRec upd "verbose") 0 + 1)))
          "start10") := by
        rw [lookupRec_setUpd_ne _ _ _ _ (by decide)]
        exact hs
      rw [ih _ hrest hv2 hs2]
      rw [lookupRec_setUpd_self, lookupRec_setUpd_ne _ _ _ _ (by decide)]
      rw [vFinal_step _ _ hv]
      have hc1 : ("-v" :: rest).count "-v" = rest.count "-v" + 1 := by
        simp [List.count_cons]
      have hc2 : ("-v" :: rest).count "-s" = rest.count "-s" := by
        simp [List.count_cons]
      rw [hc1, hc2]

/-- Strict reconciliation of a count record whose verbose entry is none. -/
theorem countCfg_reconcile_vnone (e : Int) :
    parse_typed_args [("verbose", Value.vnone), ("start10", .vint e)] countCfg true =
      .ok [("verbose", Value.vnone), ("start10", .vint e)] := rfl

/-- Strict reconciliation of a count record whose verbose entry is an
integer. -/
theorem countCfg_reconcile_vint (d e : Int) :
    parse_typed_args [("verbose", .vint d), ("start10", .vint e)] countCfg true =
      .ok [("verbose", .vint d), ("start10", .vint e)] := rfl

/-- C7: on the count schema — `verbose` registered with action count and no
default, `start10` registered with action count and default 10 — parsing any
sequence of `-s`/`-v` flags in strict mode yields: the configured default for
a field whose flag never occurs (none for `verbose`, 10 for `start10`), and
default + n for n occurrences (n itself for `verbose`, whose default is
none). -/
theorem action_count_accumulates (toks : List String)
    (h : ∀ t ∈ toks, t = "-s" ∨ t = "-v") :
    TypedParser.parse_args (TypedParser.createParser countCfg true) toks =
      some (.ok [("verbose", if toks.count "-v" = 0 then Value.vnone
                   else .vint (toks.count "-v")),
                 ("start10", .vint (10 + (toks.count "-s" : Int)))]) := by
  have hrec : engineParse countEngine toks =
      some [("verbose", vFinal none (toks.count "-v")),
            ("start10", sFinal none (toks.count "-s"))] := by
    unfold engineParse
    have h0 : lookupRec [] "verbose" = none := rfl
    have h1 : lookupRec [] "start10" = none := rfl
    rw [count_aux toks [] h (Or.inl rfl) (Or.inl rfl), h0, h1]
  have heng : (TypedParser.createParser countCfg true).engine = countEngine := rfl
  unfold TypedParser.parse_args
  rw [heng, hrec]
  have hsf : sFinal none (toks.count "-s") = .vint (10 + (toks.count "-s" : Int)) := by
    simp [sFinal, curInt]
  rw [hsf]
  by_cases hnv : toks.count "-v" = 0
  · have hvf : vFinal none (toks.count "-v") = Value.vnone := by
      simp [vFinal, hnv]
    rw [hvf, hnv, if_pos rfl]
    rfl
  · have hvf : vFinal none (toks.count "-v") = .vint (toks.count "-v") := by
      simp [vFinal, hnv, curInt]
    rw [hvf, if_neg hnv]
    rfl

/-- Witness for C7: two `-s` occurrences and one `-v` yield 12 and 1. -/
theorem action_count_accumulates_witness :
    (∀ t ∈ (["-s", "-s", "-v"] : List String), t = "-s" ∨ t = "-v") ∧
    TypedParser.parse_args (TypedParser.createParser countCfg true)
      ["-s", "-s", "-v"] =
      some (.ok [("verbose",
          if (["-s", "-s", "-v"] : List String).count "-v" = 0 then Value.vnone
          else .vint ((["-s", "-s", "-v"] : List String).count "-v")),
        ("start10",
          .vint (10 + ((["-s", "-s", "-v"] : List String).count "-s" : Int)))]) :=
  ⟨by decide, action_count_accumulates ["-s", "-s", "-v"] (by decide)⟩

end Typedparser
